import Mathlib

/-!
Verification of the gozip repository: a shallow embedding of the argument
parser, catalog record model, extraction engine and browser state machine,
together with theorems about the properties stated in the design document.

Machine integers of the source (uint64 sizes, uint32 crc) are modelled as
Nat: the source only constructs, renders and compares these values, never
performs arithmetic on them, so no overflow is observable.
-/

namespace GoZip

/-! ## String helpers

The Go code uses strings.HasPrefix, strings.HasSuffix, strings.Contains and
strings.ToLower.  They are embedded here over the character list of a
string, which agrees with the byte-wise Go functions on valid UTF-8 input
(a byte-level prefix or suffix or substring of valid UTF-8 is exactly a
character-level one).  ToLower is modelled on ASCII letters, the only case
mapping exercised by this program (names, rendered booleans, decimal
numbers and RFC3339 timestamps).
-/

/-- Embedding of strings.HasPrefix: p is a prefix of s. -/
def hasPrefixS (s p : String) : Bool :=
  p.data.isPrefixOf s.data

/-- Embedding of strings.HasSuffix: p is a suffix of s. -/
def hasSuffixS (s p : String) : Bool :=
  p.data.isSuffixOf s.data

/-- Substring search: does the character list needle occur contiguously in
the list? -/
def subAt (needle : List Char) : List Char → Bool
  | [] => needle.isEmpty
  | c :: cs => needle.isPrefixOf (c :: cs) || subAt needle cs

/-- Embedding of strings.Contains: needle occurs contiguously in hay. -/
def containsSubstring (hay needle : String) : Bool :=
  subAt needle.data hay.data

/-- Embedding of strings.ToLower, restricted to the ASCII case mapping. -/
def goToLower (s : String) : String :=
  ⟨s.data.map Char.toLower⟩

/-! ## Path cleaning

filepath.Join(a, b) on a Unix target is Clean(a + "/" + b) (for non-empty
a).  Clean is modelled over the slash-separated components of the path:
empty and dot components are dropped, a dot-dot component pops the last
normal component, pops nothing at the root of a rooted path, and is kept
at the head of a relative path.
-/

/-- Split a character list at every slash, like strings.Split(s, sep) with a
one-character separator. -/
def splitSlash : List Char → List (List Char)
  | [] => [[]]
  | c :: cs =>
    if c = '/' then [] :: splitSlash cs
    else
      match splitSlash cs with
      | [] => [[c]]
      | g :: gs => (c :: g) :: gs

/-- Join components back with slashes. -/
def joinSlash : List String → String
  | [] => ""
  | [p] => p
  | p :: ps => p ++ "/" ++ joinSlash ps

/-- The component stack of path.Clean: processes components left to right,
keeping the output stack reversed. -/
def cleanStack (rooted : Bool) : List String → List String → List String
  | [], stack => stack.reverse
  | c :: cs, stack =>
    if c = "" ∨ c = "." then cleanStack rooted cs stack
    else if c = ".." then
      match stack with
      | [] =>
        if rooted then cleanStack rooted cs []
        else cleanStack rooted cs [".."]
      | top :: rest =>
        if top = ".." then cleanStack rooted cs (".." :: top :: rest)
        else cleanStack rooted cs rest
    else cleanStack rooted cs (c :: stack)

/-- Embedding of path/filepath Clean on a Unix target. -/
def goClean (path : String) : String :=
  if path = "" then "."
  else
    let rooted := hasPrefixS path "/"
    let parts := cleanStack rooted ((splitSlash path.data).map String.mk) []
    if rooted then "/" ++ joinSlash parts
    else if parts.isEmpty then "." else joinSlash parts

/-- Embedding of filepath.Join with two elements: empty elements are
skipped, the rest is cleaned. -/
def goJoin (a b : String) : String :=
  if a = "" then (if b = "" then "" else goClean b)
  else goClean (a ++ "/" ++ b)

/-! ## Argument parsing (util.getFileArgumentValue)

The source returns a distinct error value for each failure; the three
errors.New messages are embedded as the three constructors of ArgError.
-/

/-- The three distinct argument errors of getFileArgumentValue. -/
inductive ArgError where
  /-- message: i do not know what to do with so many arguments -/
  | tooManyArguments
  /-- message: no zip file provided -/
  | noZipFileProvided
  /-- message: invalid zip file name -/
  | invalidZipFileName
deriving DecidableEq

/-- Embedding of util.getFileArgumentValue.  args is the full os.Args list,
program name included; args[1:] is List.drop 1. -/
def getFileArgumentValue (args : List String) : Except ArgError String :=
  if args.length > 2 then
    Except.error ArgError.tooManyArguments
  else
    match args.drop 1 with
    | [] => Except.error ArgError.noZipFileProvided
    | fileName :: _ =>
      if fileName.data.isEmpty || !(hasSuffixS fileName ".zip") then
        Except.error ArgError.invalidZipFileName
      else
        Except.ok fileName

/-! ## Extraction engine (util.ExtractFile)

A central-directory record is reduced to the two fields the extraction
loop reads: its name and whether its file info marks it as a directory.
Filesystem effects are made explicit: the outcome carries the list of
destination paths successfully written, and the failure of an individual
MkdirAll or create-and-copy step (both abort identically in the source) is
an oracle from the record being extracted to Bool.
-/

/-- The two fields of a ZIP record that ExtractFile inspects. -/
structure ZipRecord where
  name : String
  isDir : Bool
deriving DecidableEq

/-- The errors ExtractFile can return once the archive is open: the
not-found error naming the target, or a wrapped I/O error naming the entry
whose extraction failed. -/
inductive ExtractError where
  | notFound (targetName : String)
  | ioError (name : String)
deriving DecidableEq

/-- Result of a call to ExtractFile: the returned count, the destination
paths written (in order), and the returned error if any. -/
structure ExtractOutcome where
  count : Nat
  written : List String
  err : Option ExtractError
deriving DecidableEq

/-- The normalized target prefix of ExtractFile: targetName, with a slash
appended when it does not already end in one. -/
def targetPrefixOf (targetName : String) : String :=
  if hasSuffixS targetName "/" then targetName else targetName ++ "/"

/-- The match test of the extraction loop: exact name match, or the name
starts with the normalized target prefix. -/
def matchesTarget (targetName : String) (r : ZipRecord) : Bool :=
  r.name == targetName || hasPrefixS r.name (targetPrefixOf targetName)

/-- The loop body of ExtractFile over the remaining records, carrying the
running count, the found flag and the paths written so far. -/
def extractLoop (targetName destDir : String) (ioFail : ZipRecord → Bool) :
    List ZipRecord → Nat → Bool → List String → ExtractOutcome
  | [], count, found, written =>
    if found then ⟨count, written, none⟩
    else ⟨0, written, some (ExtractError.notFound targetName)⟩
  | r :: rs, count, found, written =>
    if matchesTarget targetName r then
      if r.isDir then
        extractLoop targetName destDir ioFail rs count true written
      else if ioFail r then
        ⟨count, written, some (ExtractError.ioError r.name)⟩
      else
        extractLoop targetName destDir ioFail rs (count + 1) true
          (written ++ [goJoin destDir r.name])
    else
      extractLoop targetName destDir ioFail rs count found written

/-- Embedding of util.ExtractFile on an opened archive, given as its record
list in central-directory order. -/
def extractFile (recs : List ZipRecord) (targetName destDir : String)
    (ioFail : ZipRecord → Bool) : ExtractOutcome :=
  extractLoop targetName destDir ioFail recs 0 false []

/-- The matching non-directory records of an archive, in order. -/
def matchedFiles (targetName : String) (recs : List ZipRecord) :
    List ZipRecord :=
  recs.filter (fun r => matchesTarget targetName r && !r.isDir)

/-! ## Catalog records (core.ZippedFile) and the filter engine -/

/-- Embedding of core.ZippedFile. -/
structure ZippedFile where
  fileName : String
  dir : Bool
  size : Nat
  compressed : Nat
  method : String
  modified : String
  crc : Nat
deriving DecidableEq

/-- Embedding of strconv.FormatBool. -/
def formatBool (b : Bool) : String :=
  if b then "true" else "false"

/-- The five rendered display fields of a table row, as built in
buildContentTable: name, formatted directory flag, decimal size, modified
date, decimal crc. -/
def renderRow (zf : ZippedFile) : List String :=
  [zf.fileName, formatBool zf.dir, Nat.repr zf.size, zf.modified,
    Nat.repr zf.crc]

/-- The per-row match test of populateTable: an empty filter matches
everything, otherwise some rendered field, lowercased, contains the
lowercased filter text. -/
def rowMatches (filterText : String) (row : List String) : Bool :=
  filterText == "" ||
    row.any (fun v => containsSubstring (goToLower v) (goToLower filterText))

/-- The filter engine: the sublist of the listing whose rendered rows match
the filter text, in original order, as populateTable displays it. -/
def filterListing (filterText : String) (files : List ZippedFile) :
    List ZippedFile :=
  files.filter (fun zf => rowMatches filterText (renderRow zf))

/-! ## Browser state machine (ui.buildContentTable)

The mutable state captured by the closures of buildContentTable: the
selected table row, the lastExtractedRow sentinel (-1 when no success
status is attached to a row), the extraction message, the table title, the
focused widget, the filterMode flag and the filter text, plus a running
flag that is cleared by app.Stop().  Events are the callbacks the toolkit
delivers: a rune key or Ctrl-C, a selection change, the completion of an
extraction triggered by Enter on a file row, opening and answering the
folder confirmation modal, and leaving the filter field with Enter or
Escape.  Key routing follows the toolkit contract of the design document:
a key event reaches the capture of the table only while the table owns
focus; a rune typed into the focused filter field is appended to its text;
runes reaching the focused modal are ignored by its buttons.
-/

/-- The widget owning keyboard focus. -/
inductive Focus where
  | table
  | filter
  | modal
deriving DecidableEq

/-- The closure state of buildContentTable. -/
structure BrowserState where
  selected : Nat
  lastExtractedRow : Int
  extractionMessage : String
  title : String
  focus : Focus
  filterMode : Bool
  filterText : String
  running : Bool
deriving DecidableEq

/-- The three ways a call to extractItem can finish: os.Getwd fails before
extraction is attempted (an early return that only sets the error title),
ExtractFile returns an error, or extraction succeeds with a formatted
message. -/
inductive ExtractUiResult where
  | cwdError (msg : String)
  | extractError (msg : String)
  | success (msg : String)

/-- Events delivered to the closures of buildContentTable. -/
inductive UiEvent where
  /-- a rune key event -/
  | keyRune (c : Char)
  /-- Ctrl-C, the interrupt key -/
  | keyCtrlC
  /-- the table selection moved to row n -/
  | selectRow (n : Nat)
  /-- Enter on a file row: extractItem ran and finished with this
  result -/
  | extractDone (res : ExtractUiResult)
  /-- Enter on a directory row: the confirmation modal is shown -/
  | openConfirm
  /-- the modal was answered No or dismissed -/
  | confirmNo
  /-- the modal was answered Yes: extractItem ran with this result -/
  | confirmYes (res : ExtractUiResult)
  /-- the filter field completion callback fired (true for Escape, false
  for Enter) -/
  | filterDone (escape : Bool)

/-- The SetSelectionChangedFunc handler followed by the selection update:
when a success status is attached to a different row, the title is reset
and the status cleared. -/
def applySelectionChanged (fileName : String) (s : BrowserState) (n : Nat) :
    BrowserState :=
  let s' :=
    if s.lastExtractedRow != -1 && ((n : Int) != s.lastExtractedRow) then
      { s with title := fileName, lastExtractedRow := -1,
               extractionMessage := "" }
    else s
  { s' with selected := n }

/-- The state update of extractItem: when os.Getwd fails, the early return
only sets the error title, leaving lastExtractedRow and extractionMessage
untouched; when ExtractFile returns an error, the title shows the error
and the status is reset; on success the status row becomes the row it was
invoked on (the current selection) and the title shows the message. -/
def applyExtractItem (s : BrowserState) : ExtractUiResult → BrowserState
  | ExtractUiResult.cwdError msg =>
    { s with title := "[red]Error: " ++ msg ++ "[-]" }
  | ExtractUiResult.extractError msg =>
    { s with title := "[red]Error: " ++ msg ++ "[-]",
             lastExtractedRow := -1, extractionMessage := "" }
  | ExtractUiResult.success msg =>
    { s with lastExtractedRow := (s.selected : Int),
             extractionMessage := msg, title := msg }

/-- One step of the browser state machine. -/
def stepUi (fileName : String) (s : BrowserState) : UiEvent → BrowserState
  | UiEvent.keyRune c =>
    match s.focus with
    | Focus.table =>
      if c == 'q' || c == 'Q' then { s with running := false }
      else if (c == 'f' || c == 'F') && !s.filterMode then
        { s with filterMode := true, filterText := "", focus := Focus.filter }
      else s
    | Focus.filter => { s with filterText := s.filterText.push c }
    | Focus.modal => s
  | UiEvent.keyCtrlC => { s with running := false }
  | UiEvent.selectRow n => applySelectionChanged fileName s n
  | UiEvent.extractDone res =>
    if s.focus == Focus.table then applyExtractItem s res else s
  | UiEvent.openConfirm =>
    if s.focus == Focus.table then { s with focus := Focus.modal } else s
  | UiEvent.confirmNo =>
    if s.focus == Focus.modal then { s with focus := Focus.table } else s
  | UiEvent.confirmYes res =>
    if s.focus == Focus.modal then
      { applyExtractItem s res with focus := Focus.table }
    else s
  | UiEvent.filterDone escape =>
    if s.focus == Focus.filter then
      let s' := if escape then { s with filterText := "" } else s
      { s' with filterMode := false, focus := Focus.table }
    else s

/-- The initial closure state: first data row selected, no status, title
showing the archive name, table focused. -/
def initUi (fileName : String) : BrowserState :=
  ⟨1, -1, "", fileName, Focus.table, false, "", true⟩

/-- The state after a sequence of events in one session. -/
def runUi (fileName : String) (events : List UiEvent) : BrowserState :=
  events.foldl (stepUi fileName) (initUi fileName)

/-- The success-status invariant: whenever a success status is attached to
a row (lastExtractedRow is not the -1 sentinel), that row is the currently
selected one.  (The title is not part of the invariant: a failure of
os.Getwd overwrites the title while leaving the status fields alone.) -/
def statusOk (s : BrowserState) : Prop :=
  s.lastExtractedRow ≠ -1 → s.lastExtractedRow = (s.selected : Int)

/-! ## Theorems -/

/-- A string with suffix ".zip" has a non-empty character list. -/
theorem data_not_empty_of_zip_suffix (f : String)
    (h : hasSuffixS f ".zip" = true) : f.data.isEmpty = false := by
  cases hd : f.data with
  | nil =>
    exfalso
    rw [hasSuffixS, hd] at h
    simp [List.isSuffixOf] at h
  | cons c cs => simp [hd]

/-- Claim C10: getFileArgumentValue accepts the bare string ".zip" as the
sole positional argument and returns it with no error: the suffix check
does not require a non-empty base name before the extension. -/
theorem args_accepts_bare_zip :
    getFileArgumentValue ["program", ".zip"] = Except.ok ".zip" := rfl

/-- Claim C8: argument parsing succeeds exactly when the list of arguments
after the program name is a single name with the case-sensitive suffix
".zip"; zero positional arguments, more than one, and a sole argument
without the suffix each produce a distinct error, and every error case
produces no file name. -/
theorem args_parsing_cases (args : List String) (f : String) :
    (getFileArgumentValue args = Except.ok f ↔
      args.drop 1 = [f] ∧ hasSuffixS f ".zip" = true) ∧
    (args.drop 1 = [] →
      getFileArgumentValue args = Except.error ArgError.noZipFileProvided) ∧
    (2 < args.length →
      getFileArgumentValue args = Except.error ArgError.tooManyArguments) ∧
    (args.drop 1 = [f] → hasSuffixS f ".zip" = false →
      getFileArgumentValue args = Except.error ArgError.invalidZipFileName) ∧
    (ArgError.noZipFileProvided ≠ ArgError.tooManyArguments ∧
      ArgError.noZipFileProvided ≠ ArgError.invalidZipFileName ∧
      ArgError.tooManyArguments ≠ ArgError.invalidZipFileName) := by
  have hdist : ArgError.noZipFileProvided ≠ ArgError.tooManyArguments ∧
      ArgError.noZipFileProvided ≠ ArgError.invalidZipFileName ∧
      ArgError.tooManyArguments ≠ ArgError.invalidZipFileName := by
    refine ⟨?_, ?_, ?_⟩ <;> intro h <;> cases h
  rcases args with _ | ⟨a, rest⟩
  · exact ⟨by simp [getFileArgumentValue], fun _ => rfl, by simp,
      by simp, hdist⟩
  rcases rest with _ | ⟨b, rest2⟩
  · exact ⟨by simp [getFileArgumentValue], fun _ => rfl, by simp,
      by simp, hdist⟩
  rcases rest2 with _ | ⟨c, rest3⟩
  · by_cases hz : hasSuffixS b ".zip" = true
    · have hne := data_not_empty_of_zip_suffix b hz
      refine ⟨?_, ?_, ?_, ?_, hdist⟩
      · simp only [getFileArgumentValue, List.length_cons, List.length_nil,
          List.drop_succ_cons, List.drop_zero, hne, hz]
        norm_num
        intro hbf
        exact hbf ▸ hz
      · intro h; simp at h
      · intro h; simp at h
      · intro h1 h2
        have : b = f := by simpa using h1
        rw [this] at hz
        rw [hz] at h2
        cases h2
    · have hz' : hasSuffixS b ".zip" = false := by
        cases h : hasSuffixS b ".zip"
        · rfl
        · exact absurd h hz
      refine ⟨?_, ?_, ?_, ?_, hdist⟩
      · simp only [getFileArgumentValue, List.length_cons, List.length_nil,
          List.drop_succ_cons, List.drop_zero, hz']
        norm_num
        constructor
        · intro h
          exact absurd h (by simp)
        · rintro ⟨rfl, hsuf⟩
          simp [hz'] at hsuf
      · intro h; simp at h
      · intro h; simp at h
      · intro _ _
        simp [getFileArgumentValue, hz']
  · refine ⟨?_, ?_, ?_, ?_, hdist⟩
    · constructor
      · intro h
        simp [getFileArgumentValue] at h
      · rintro ⟨hd, _⟩
        simp at hd
    · intro h; simp at h
    · intro _
      simp [getFileArgumentValue]
    · intro h; simp at h

/-- Closed instances of the argument-parsing cases: a valid call, the
zero-argument error, the too-many error and the wrong-extension error. -/
theorem args_parsing_cases_witness :
    getFileArgumentValue ["prog", "a.zip"] = Except.ok "a.zip" ∧
    getFileArgumentValue ["prog"] = Except.error ArgError.noZipFileProvided ∧
    getFileArgumentValue ["prog", "a.zip", "b.zip"]
      = Except.error ArgError.tooManyArguments ∧
    getFileArgumentValue ["prog", "a.txt"]
      = Except.error ArgError.invalidZipFileName :=
  ⟨(args_parsing_cases ["prog", "a.zip"] "a.zip").1.mpr ⟨rfl, by decide⟩,
   (args_parsing_cases ["prog"] "a.zip").2.1 rfl,
   (args_parsing_cases ["prog", "a.zip", "b.zip"] "a.zip").2.2.1 (by decide),
   (args_parsing_cases ["prog", "a.txt"] "a.txt").2.2.2.1 rfl (by decide)⟩

/-- Claim C7: filtering with the empty query is the identity on the
listing, and filtering is idempotent. -/
theorem filter_identity_and_idempotent (files : List ZippedFile)
    (q : String) :
    filterListing "" files = files ∧
    filterListing q (filterListing q files) = filterListing q files := by
  constructor
  · simp [filterListing, rowMatches]
  · simp only [filterListing, List.filter_filter, Bool.and_self]

/-- Claim C6: for a non-empty query, an entry is kept by the filter exactly
when it is in the listing and the lowercased query occurs as a substring of
one of its five rendered display fields (lowercased), and the kept entries
form a sublist of the listing, hence appear in their original relative
order. -/
theorem filter_membership_and_order (q : String) (files : List ZippedFile)
    (hq : q ≠ "") :
    (∀ zf, zf ∈ filterListing q files ↔
      zf ∈ files ∧
        (containsSubstring (goToLower zf.fileName) (goToLower q) = true ∨
          containsSubstring (goToLower (formatBool zf.dir))
            (goToLower q) = true ∨
          containsSubstring (goToLower (Nat.repr zf.size))
            (goToLower q) = true ∨
          containsSubstring (goToLower zf.modified) (goToLower q) = true ∨
          containsSubstring (goToLower (Nat.repr zf.crc))
            (goToLower q) = true)) ∧
    (filterListing q files).Sublist files := by
  constructor
  · intro zf
    have hq' : (q == "") = false := by
      simp [hq]
    rw [filterListing, List.mem_filter, rowMatches, hq']
    simp [renderRow]
  · exact List.filter_sublist _

/-- Closed instance of the filter membership property: the query "true"
keeps a directory row (its rendered directory flag is "true") and the
result is a sublist of the listing. -/
theorem filter_membership_and_order_witness :
    (⟨"docs/", true, 0, 0, "STORE", "-", 0⟩ : ZippedFile) ∈
      filterListing "true"
        [⟨"a.txt", false, 3, 3, "STORE", "-", 7⟩,
         ⟨"docs/", true, 0, 0, "STORE", "-", 0⟩] :=
  ((filter_membership_and_order "true"
      [⟨"a.txt", false, 3, 3, "STORE", "-", 7⟩,
       ⟨"docs/", true, 0, 0, "STORE", "-", 0⟩]
      (by decide)).1 _).mpr
    ⟨by simp, Or.inr (Or.inl (by decide))⟩

/-- When the extraction loop finishes without an error, its count grows by
exactly the number of matching non-directory records it traversed. -/
theorem extractLoop_count_of_err_none (t d : String) (io : ZipRecord → Bool) :
    ∀ (recs : List ZipRecord) (count : Nat) (found : Bool)
      (written : List String),
      (extractLoop t d io recs count found written).err = none →
      (extractLoop t d io recs count found written).count
        = count + (matchedFiles t recs).length := by
  intro recs
  induction recs with
  | nil =>
    intro count found written h
    cases found
    · simp [extractLoop] at h
    · simp [extractLoop, matchedFiles]
  | cons r rs ih =>
    intro count found written h
    by_cases hm : matchesTarget t r = true
    · cases hd : r.isDir with
      | true =>
        rw [extractLoop] at h ⊢
        simp only [hm, hd, if_true] at h ⊢
        rw [ih _ _ _ h]
        simp [matchedFiles, List.filter_cons, hm, hd]
      | false =>
        cases hio : io r with
        | true =>
          rw [extractLoop] at h
          simp [hm, hd, hio] at h
        | false =>
          rw [extractLoop] at h ⊢
          simp only [hm, hd, hio, if_true, Bool.false_eq_true, if_false] at h ⊢
          rw [ih _ _ _ h]
          simp [matchedFiles, List.filter_cons, hm, hd]
          omega
    · have hm' : matchesTarget t r = false := by
        cases h' : matchesTarget t r
        · rfl
        · exact absurd h' hm
      rw [extractLoop] at h ⊢
      simp only [hm', Bool.false_eq_true, if_false] at h ⊢
      rw [ih _ _ _ h]
      simp [matchedFiles, List.filter_cons, hm']

/-- Claim C1: the target prefix is the target name with a slash appended
unless it already ends in one; a record matches exactly when its name
equals the target or starts with that prefix; and whenever ExtractFile
returns without an error its count is the number of matching non-directory
records of the archive (matching directory records are skipped and not
counted). -/
theorem extract_count_eq_matched (recs : List ZipRecord)
    (targetName destDir : String) (ioFail : ZipRecord → Bool)
    (h : (extractFile recs targetName destDir ioFail).err = none) :
    (extractFile recs targetName destDir ioFail).count
      = (matchedFiles targetName recs).length ∧
    targetPrefixOf targetName
      = (if hasSuffixS targetName "/" = true then targetName
          else targetName ++ "/") ∧
    (∀ r, matchesTarget targetName r
      = (r.name == targetName ||
          hasPrefixS r.name (targetPrefixOf targetName))) ∧
    matchedFiles targetName recs
      = recs.filter (fun r => matchesTarget targetName r && !r.isDir) := by
  refine ⟨?_, rfl, fun r => rfl, rfl⟩
  have := extractLoop_count_of_err_none targetName destDir ioFail recs 0
    false [] h
  simpa [extractFile] using this

/-- Closed instance of claim C1: extracting the folder "dir" from an
archive with a directory placeholder, two files below the prefix and one
unrelated file counts exactly the two matching files. -/
theorem extract_count_eq_matched_witness :
    (extractFile
        [⟨"dir/", true⟩, ⟨"dir/a.txt", false⟩, ⟨"dir/sub/b.txt", false⟩,
         ⟨"other.txt", false⟩]
        "dir" "/dest" (fun _ => false)).count = 2 :=
  (extract_count_eq_matched
      [⟨"dir/", true⟩, ⟨"dir/a.txt", false⟩, ⟨"dir/sub/b.txt", false⟩,
       ⟨"other.txt", false⟩]
      "dir" "/dest" (fun _ => false) (by decide)).1.trans (by decide)

/-- The extraction loop returns the not-found error exactly when it enters
with the found flag clear and no remaining record matches. -/
theorem extractLoop_notFound_iff (t d : String) (io : ZipRecord → Bool) :
    ∀ (recs : List ZipRecord) (count : Nat) (found : Bool)
      (written : List String),
      (extractLoop t d io recs count found written).err
          = some (ExtractError.notFound t) ↔
        (found = false ∧ ∀ r ∈ recs, matchesTarget t r = false) := by
  intro recs
  induction recs with
  | nil =>
    intro count found written
    cases found <;> simp [extractLoop]
  | cons r rs ih =>
    intro count found written
    by_cases hm : matchesTarget t r = true
    · cases hd : r.isDir with
      | true =>
        rw [extractLoop]
        simp only [hm, hd, if_true, ih]
        simp [hm]
      | false =>
        cases hio : io r with
        | true =>
          rw [extractLoop]
          simp only [hm, hd, hio, if_true, Bool.false_eq_true, if_false]
          simp [hm]
        | false =>
          rw [extractLoop]
          simp only [hm, hd, hio, if_true, Bool.false_eq_true, if_false, ih]
          simp [hm]
    · have hm' : matchesTarget t r = false := by
        cases h' : matchesTarget t r
        · rfl
        · exact absurd h' hm
      rw [extractLoop]
      simp only [hm', Bool.false_eq_true, if_false, ih]
      simp [hm']

/-- When no remaining record matches, the loop writes nothing and keeps its
count: it succeeds if the found flag is already set and otherwise returns
the not-found error. -/
theorem extractLoop_of_no_match (t d : String) (io : ZipRecord → Bool) :
    ∀ (recs : List ZipRecord),
      (∀ r ∈ recs, matchesTarget t r = false) →
      ∀ (count : Nat) (found : Bool) (written : List String),
        extractLoop t d io recs count found written
          = if found then ⟨count, written, none⟩
            else ⟨0, written, some (ExtractError.notFound t)⟩ := by
  intro recs
  induction recs with
  | nil =>
    intro _ count found written
    rw [extractLoop]
  | cons r rs ih =>
    intro hno count found written
    have hm' : matchesTarget t r = false := hno r (by simp)
    rw [extractLoop]
    simp only [hm', Bool.false_eq_true, if_false]
    exact ih (fun x hx => hno x (by simp [hx])) count found written

/-- When every remaining matching record is a directory and either the
found flag is set or some record matches, the loop succeeds with its count
and writes nothing further. -/
theorem extractLoop_all_dirs (t d : String) (io : ZipRecord → Bool) :
    ∀ (recs : List ZipRecord) (count : Nat) (found : Bool)
      (written : List String),
      (∀ r ∈ recs, matchesTarget t r = true → r.isDir = true) →
      (found = true ∨ ∃ r ∈ recs, matchesTarget t r = true) →
      extractLoop t d io recs count found written
        = ⟨count, written, none⟩ := by
  intro recs
  induction recs with
  | nil =>
    intro count found written _ hfound
    rcases hfound with hf | ⟨r, hr, _⟩
    · rw [extractLoop, if_pos hf]
    · cases hr
  | cons r rs ih =>
    intro count found written hdirs hfound
    by_cases hm : matchesTarget t r = true
    · have hd : r.isDir = true := hdirs r (by simp) hm
      rw [extractLoop]
      simp only [hm, hd, if_true]
      exact ih count true written (fun x hx => hdirs x (by simp [hx]))
        (Or.inl rfl)
    · have hm' : matchesTarget t r = false := by
        cases h' : matchesTarget t r
        · rfl
        · exact absurd h' hm
      rw [extractLoop]
      simp only [hm', Bool.false_eq_true, if_false]
      refine ih count found written (fun x hx => hdirs x (by simp [hx])) ?_
      rcases hfound with hf | ⟨x, hx, hxm⟩
      · exact Or.inl hf
      · rcases List.mem_cons.mp hx with rfl | hx'
        · exact absurd hxm hm
        · exact Or.inr ⟨x, hx', hxm⟩

/-- Claim C2: ExtractFile returns the not-found error naming the target
exactly when no record of the archive matches, in which case no file is
written; and when records match but all of them are directory entries, it
returns count zero with no error and writes nothing. -/
theorem extract_notFound_iff_no_match (recs : List ZipRecord)
    (targetName destDir : String) (ioFail : ZipRecord → Bool) :
    ((extractFile recs targetName destDir ioFail).err
        = some (ExtractError.notFound targetName) ↔
      ∀ r ∈ recs, matchesTarget targetName r = false) ∧
    ((extractFile recs targetName destDir ioFail).err
        = some (ExtractError.notFound targetName) →
      (extractFile recs targetName destDir ioFail).written = []) ∧
    ((∃ r ∈ recs, matchesTarget targetName r = true) →
      (∀ r ∈ recs, matchesTarget targetName r = true → r.isDir = true) →
      extractFile recs targetName destDir ioFail = ⟨0, [], none⟩) := by
  refine ⟨?_, ?_, ?_⟩
  · rw [extractFile, extractLoop_notFound_iff]
    simp
  · intro h
    have hno : ∀ r ∈ recs, matchesTarget targetName r = false := by
      have := (extractLoop_notFound_iff targetName destDir ioFail recs 0
        false []).mp h
      exact this.2
    rw [extractFile, extractLoop_of_no_match targetName destDir ioFail recs
      hno 0 false []]
    rfl
  · intro hex hdirs
    rw [extractFile, extractLoop_all_dirs targetName destDir ioFail recs 0
      false [] hdirs (Or.inr hex)]

/-- Closed instances of claim C2: a target matching nothing yields the
not-found error with an empty written list, and a target whose only match
is a directory placeholder yields count zero with no error. -/
theorem extract_notFound_iff_no_match_witness :
    (extractFile [⟨"a.txt", false⟩] "missing" "/dest"
        (fun _ => false)).err
      = some (ExtractError.notFound "missing") ∧
    (extractFile [⟨"a.txt", false⟩] "missing" "/dest"
        (fun _ => false)).written = [] ∧
    extractFile [⟨"empty/", true⟩, ⟨"a.txt", false⟩] "empty" "/dest"
        (fun _ => false)
      = ⟨0, [], none⟩ := by
  have h1 := extract_notFound_iff_no_match [⟨"a.txt", false⟩] "missing"
    "/dest" (fun _ => false)
  have h2 := extract_notFound_iff_no_match
    [⟨"empty/", true⟩, ⟨"a.txt", false⟩] "empty" "/dest" (fun _ => false)
  refine ⟨h1.1.mpr (by decide), h1.2.1 (h1.1.mpr (by decide)), ?_⟩
  exact h2.2.2 ⟨⟨"empty/", true⟩, by simp, by decide⟩ (by decide)

/-- When the first failing matching file of the remaining records is r, the
loop stops at r: it returns the error naming r, counts exactly the
matching files before r, and appends exactly their destination paths. -/
theorem extractLoop_first_fail (t d : String) (io : ZipRecord → Bool)
    (r : ZipRecord) (post : List ZipRecord)
    (hm : matchesTarget t r = true) (hd : r.isDir = false)
    (hf : io r = true) :
    ∀ (pre : List ZipRecord),
      (∀ p ∈ pre, matchesTarget t p = true → p.isDir = false →
        io p = false) →
      ∀ (count : Nat) (found : Bool) (written : List String),
        extractLoop t d io (pre ++ r :: post) count found written
          = ⟨count + (matchedFiles t pre).length,
             written ++ (matchedFiles t pre).map (fun p => goJoin d p.name),
             some (ExtractError.ioError r.name)⟩ := by
  intro pre
  induction pre with
  | nil =>
    intro _ count found written
    rw [List.nil_append, extractLoop]
    simp [hm, hd, hf, matchedFiles]
  | cons p pre' ih =>
    intro hok count found written
    rw [List.cons_append, extractLoop]
    by_cases hpm : matchesTarget t p = true
    · cases hpd : p.isDir with
      | true =>
        simp only [hpm, hpd, if_true]
        rw [ih (fun x hx => hok x (by simp [hx])) count true written]
        simp [matchedFiles, List.filter_cons, hpm, hpd]
      | false =>
        have hpio : io p = false := hok p (by simp) hpm hpd
        simp only [hpm, hpd, hpio, if_true, Bool.false_eq_true, if_false]
        rw [ih (fun x hx => hok x (by simp [hx])) (count + 1) true
          (written ++ [goJoin d p.name])]
        simp only [matchedFiles, List.filter_cons, hpm, hpd]
        simp [List.append_assoc]
        omega
    · have hpm' : matchesTarget t p = false := by
        cases h' : matchesTarget t p
        · rfl
        · exact absurd h' hpm
      simp only [hpm', Bool.false_eq_true, if_false]
      rw [ih (fun x hx => hok x (by simp [hx])) count found written]
      simp [matchedFiles, List.filter_cons, hpm']

/-- Claim C3: if the creation or copy of a matching file fails (and every
matching file before it succeeded), ExtractFile aborts at that file: it
returns the count of files extracted before the failure together with the
error naming the failing entry, the files already written stay in the
written list (no rollback), and no record after the failing one produces a
write. -/
theorem extract_aborts_at_first_failure (targetName destDir : String)
    (ioFail : ZipRecord → Bool) (pre post : List ZipRecord) (r : ZipRecord)
    (hm : matchesTarget targetName r = true) (hd : r.isDir = false)
    (hf : ioFail r = true)
    (hok : ∀ p ∈ pre, matchesTarget targetName p = true → p.isDir = false →
      ioFail p = false) :
    extractFile (pre ++ r :: post) targetName destDir ioFail
      = ⟨(matchedFiles targetName pre).length,
         (matchedFiles targetName pre).map (fun p => goJoin destDir p.name),
         some (ExtractError.ioError r.name)⟩ := by
  rw [extractFile, extractLoop_first_fail targetName destDir ioFail r post
    hm hd hf pre hok 0 false []]
  simp

/-- Closed instance of claim C3: in an archive with two matching files
before the failing one is reached, a failure on the second file stops the
extraction with count one, exactly one written path, and the error naming
the failing entry, while the file after it is never written. -/
theorem extract_aborts_at_first_failure_witness :
    extractFile
        [⟨"d/", true⟩, ⟨"d/a", false⟩, ⟨"d/b", false⟩, ⟨"d/c", false⟩]
        "d" "/dest" (fun x => x.name == "d/b")
      = ⟨1, ["/dest/d/a"], some (ExtractError.ioError "d/b")⟩ := by
  have h := extract_aborts_at_first_failure "d" "/dest"
    (fun x => x.name == "d/b") [⟨"d/", true⟩, ⟨"d/a", false⟩]
    [⟨"d/c", false⟩] ⟨"d/b", false⟩ (by decide) (by decide) (by decide)
    (by decide)
  exact h.trans (by decide)

/-- Claim C4 (evaluation at the failing input): the record named
"../evil.txt" matches the target "../evil.txt", extraction succeeds, and
the single written path is "/evil.txt", which lies outside the destination
directory "/dest": path cleaning inside filepath.Join lets a dot-dot
component of an entry name escape destDir. -/
theorem extract_zipslip_escapes_destDir :
    matchesTarget "../evil.txt" ⟨"../evil.txt", false⟩ = true ∧
    extractFile [⟨"../evil.txt", false⟩] "../evil.txt" "/dest"
        (fun _ => false)
      = ⟨1, ["/evil.txt"], none⟩ ∧
    goJoin "/dest" "../evil.txt" = "/evil.txt" ∧
    hasPrefixS "/evil.txt" "/dest/" = false ∧
    "/evil.txt" ≠ "/dest" := by
  refine ⟨by decide, by decide, by decide, by decide, by decide⟩

/-- Every browser event preserves the success-status invariant. -/
theorem statusOk_step (fileName : String) (s : BrowserState) (e : UiEvent)
    (h : statusOk s) : statusOk (stepUi fileName s e) := by
  cases e with
  | keyRune c =>
    cases hf : s.focus with
    | table =>
      simp only [stepUi, hf]
      split
      · exact h
      · split
        · exact h
        · exact h
    | filter =>
      simp only [stepUi, hf]
      exact h
    | modal =>
      simp only [stepUi, hf]
      exact h
  | keyCtrlC => exact h
  | selectRow n =>
    simp only [stepUi, applySelectionChanged]
    split
    · intro hne
      exact absurd rfl hne
    · rename_i hcond
      intro hne
      have hcond' : s.lastExtractedRow = -1 ∨
          (n : Int) = s.lastExtractedRow := by
        simpa only [Bool.and_eq_true, bne_iff_ne, ne_eq, not_and_or,
          not_not] using hcond
      rcases hcond' with h1 | h2
      · exact absurd h1 hne
      · exact h2.symm
  | extractDone res =>
    simp only [stepUi]
    split
    · cases res with
      | cwdError msg => exact h
      | extractError msg =>
        intro hne
        exact absurd rfl hne
      | success msg =>
        intro _
        rfl
    · exact h
  | openConfirm =>
    simp only [stepUi]
    split
    · exact h
    · exact h
  | confirmNo =>
    simp only [stepUi]
    split
    · exact h
    · exact h
  | confirmYes res =>
    simp only [stepUi]
    split
    · cases res with
      | cwdError msg => exact h
      | extractError msg =>
        intro hne
        exact absurd rfl hne
      | success msg =>
        intro _
        rfl
    · exact h
  | filterDone escape =>
    simp only [stepUi]
    split
    · split
      · exact h
      · exact h
    · exact h

/-- The success-status invariant holds after any event sequence from any
state satisfying it. -/
theorem statusOk_foldl (fileName : String) :
    ∀ (events : List UiEvent) (s : BrowserState), statusOk s →
      statusOk (events.foldl (stepUi fileName) s) := by
  intro events
  induction events with
  | nil => exact fun s h => h
  | cons e es ih => exact fun s h => ih _ (statusOk_step fileName s e h)

/-- Claim C5, counterexample to the claim as stated: after an extraction
completes with an error message, moving the selection to a different row
does not clear the status: the title still shows the error, because the
error path resets lastExtractedRow to -1 instead of binding the message to
the selected row. -/
theorem error_status_not_cleared_counterexample :
    (runUi "a.zip"
        [UiEvent.extractDone (ExtractUiResult.extractError "boom"),
         UiEvent.selectRow 2]).selected = 2 ∧
    (runUi "a.zip"
        [UiEvent.extractDone (ExtractUiResult.extractError "boom"),
         UiEvent.selectRow 2]).title = "[red]Error: boom[-]" ∧
    (runUi "a.zip"
        [UiEvent.extractDone (ExtractUiResult.extractError "boom"),
         UiEvent.selectRow 2]).title ≠ "a.zip" := by
  refine ⟨by decide, by decide, by decide⟩

/-- Claim C5 as amended: a successful extraction attaches the status to
the row selected at that moment and shows its message in the title; in
every state reachable by a sequence of events in one session, a success
status, when present, is attached to the currently selected row; and a
selection change to a row different from the status row clears the status
and resets the title.  (Error messages are not row-bound: the
ExtractFile-error path clears lastExtractedRow and leaves the error title
in place across selection changes, and a working-directory failure only
overwrites the title, leaving the status fields untouched.) -/
theorem success_status_row_invariant (fileName : String)
    (events : List UiEvent) :
    ((runUi fileName events).lastExtractedRow ≠ -1 →
      (runUi fileName events).lastExtractedRow
          = ((runUi fileName events).selected : Int)) ∧
    (∀ (s : BrowserState) (msg : String), s.focus = Focus.table →
      stepUi fileName s (UiEvent.extractDone (ExtractUiResult.success msg))
          = { s with lastExtractedRow := (s.selected : Int),
                     extractionMessage := msg, title := msg }) ∧
    (∀ (s : BrowserState) (n : Nat), s.lastExtractedRow ≠ -1 →
      (n : Int) ≠ s.lastExtractedRow →
      (stepUi fileName s (UiEvent.selectRow n)).lastExtractedRow = -1 ∧
        (stepUi fileName s (UiEvent.selectRow n)).title = fileName ∧
        (stepUi fileName s (UiEvent.selectRow n)).extractionMessage
          = "") := by
  refine ⟨?_, ?_, ?_⟩
  · exact statusOk_foldl fileName events (initUi fileName)
      (fun hne => absurd rfl hne)
  · intro s msg hf
    have hft : (s.focus == Focus.table) = true := by
      simp [hf]
    simp [stepUi, applyExtractItem, hft]
  · intro s n h1 h2
    have hcond : (s.lastExtractedRow != -1 &&
        ((n : Int) != s.lastExtractedRow)) = true := by
      simp only [Bool.and_eq_true, bne_iff_ne, ne_eq]
      exact ⟨h1, h2⟩
    simp [stepUi, applySelectionChanged, hcond]

/-- Closed instance of the amended claim C5: a successful extraction from
the initial state binds the status to the selected row and shows the
message, the reachable state after it keeps the status on the selected
row, and a selection change to another row clears it and restores the
title. -/
theorem success_status_row_invariant_witness :
    (runUi "a.zip" [UiEvent.extractDone
        (ExtractUiResult.success "ok")]).lastExtractedRow
      = ((runUi "a.zip" [UiEvent.extractDone
          (ExtractUiResult.success "ok")]).selected : Int) ∧
    stepUi "a.zip" (initUi "a.zip")
        (UiEvent.extractDone (ExtractUiResult.success "ok"))
      = { initUi "a.zip" with lastExtractedRow := 1,
                              extractionMessage := "ok", title := "ok" } ∧
    (stepUi "a.zip" (runUi "a.zip" [UiEvent.extractDone
        (ExtractUiResult.success "ok")])
        (UiEvent.selectRow 2)).lastExtractedRow = -1 ∧
    (stepUi "a.zip" (runUi "a.zip" [UiEvent.extractDone
        (ExtractUiResult.success "ok")])
        (UiEvent.selectRow 2)).title = "a.zip" := by
  have h := success_status_row_invariant "a.zip"
    [UiEvent.extractDone (ExtractUiResult.success "ok")]
  have h2 := h.2.1 (initUi "a.zip") "ok" rfl
  have h3 := h.2.2
    (runUi "a.zip" [UiEvent.extractDone (ExtractUiResult.success "ok")]) 2
    (by decide) (by decide)
  exact ⟨h.1 (by decide), h2.trans (by decide), h3.1, h3.2.1⟩

/-- Claim C9, counterexample to the claim as stated: the folder-extraction
confirmation modal is a reachable state whose input focus is not a text
field, and a q key event there does not terminate the application: the
input capture of the table is not consulted while the modal owns focus,
and the modal buttons ignore rune keys. -/
theorem modal_quit_ignored_counterexample :
    (runUi "a.zip" [UiEvent.openConfirm, UiEvent.keyRune 'q']).focus
        = Focus.modal ∧
    Focus.modal ≠ Focus.filter ∧
    (runUi "a.zip" [UiEvent.openConfirm, UiEvent.keyRune 'q']).running
        = true := by
  refine ⟨by decide, by decide, by decide⟩

/-- Claim C9 as amended: while the content table owns focus, q or Q or the
interrupt key terminates the application; while the filter field owns
focus, q and Q are appended to the filter text as literal characters and
never terminate; while the confirmation modal owns focus, q and Q are
ignored (the interrupt key still terminates). -/
theorem quit_key_routing (fileName : String) (s : BrowserState) :
    (s.focus = Focus.table →
      (stepUi fileName s (UiEvent.keyRune 'q')).running = false ∧
        (stepUi fileName s (UiEvent.keyRune 'Q')).running = false ∧
        (stepUi fileName s UiEvent.keyCtrlC).running = false) ∧
    (s.focus = Focus.filter →
      (stepUi fileName s (UiEvent.keyRune 'q')).filterText
          = s.filterText.push 'q' ∧
        (stepUi fileName s (UiEvent.keyRune 'q')).running = s.running ∧
        (stepUi fileName s (UiEvent.keyRune 'Q')).filterText
          = s.filterText.push 'Q' ∧
        (stepUi fileName s (UiEvent.keyRune 'Q')).running = s.running) ∧
    (s.focus = Focus.modal →
      (stepUi fileName s (UiEvent.keyRune 'q')).running = s.running ∧
        (stepUi fileName s (UiEvent.keyRune 'Q')).running = s.running ∧
        (stepUi fileName s UiEvent.keyCtrlC).running = false) := by
  have hq : ('q' == 'q' || 'q' == 'Q') = true := by decide
  have hQ : ('Q' == 'q' || 'Q' == 'Q') = true := by decide
  refine ⟨?_, ?_, ?_⟩ <;> intro hf
  · refine ⟨?_, ?_, rfl⟩
    · simp only [stepUi, hf, hq, if_true]
    · simp only [stepUi, hf, hQ, if_true]
  · refine ⟨?_, ?_, ?_, ?_⟩ <;> simp only [stepUi, hf]
  · refine ⟨?_, ?_, rfl⟩ <;> simp only [stepUi, hf]

/-- Closed instance of the amended claim C9: from the initial state q
terminates; with the filter focused q becomes filter text and the
application keeps running; with the modal focused q is ignored. -/
theorem quit_key_routing_witness :
    (stepUi "a.zip" (initUi "a.zip") (UiEvent.keyRune 'q')).running
        = false ∧
    (stepUi "a.zip" { initUi "a.zip" with focus := Focus.filter }
        (UiEvent.keyRune 'q')).filterText = "q" ∧
    (stepUi "a.zip" { initUi "a.zip" with focus := Focus.filter }
        (UiEvent.keyRune 'q')).running = true ∧
    (stepUi "a.zip" { initUi "a.zip" with focus := Focus.modal }
        (UiEvent.keyRune 'q')).running = true := by
  have h1 := (quit_key_routing "a.zip" (initUi "a.zip")).1 rfl
  have h2 := (quit_key_routing "a.zip"
    { initUi "a.zip" with focus := Focus.filter }).2.1 rfl
  have h3 := (quit_key_routing "a.zip"
    { initUi "a.zip" with focus := Focus.modal }).2.2 rfl
  exact ⟨h1.1, h2.1.trans (by decide), h2.2.1.trans (by decide),
    h3.1.trans (by decide)⟩

end GoZip
